import Mathlib

/-!
Verification of the Quran page-extraction core: a shallow embedding of
`gui/Agent/text_processor_advanced.py` (normalization, cleaning and the
multi-factor similarity scorer) and `old-extractors/ayat_extractor_main.py`
(bbox reconciliation, SVG/PDF collection and the greedy per-page verse
matcher).

Modelling conventions:
* Python strings are `List Char`; Python floats are modelled as `ℚ`
  (the arithmetic in these modules is sums, products, divisions and
  comparisons of small decimals, all exact).
* `unicodedata.normalize('NFKC', ·)` is an external library call; it is
  passed in as an explicit function parameter `nfkc` and every theorem
  quantifies over it (concrete instances use `id`, which agrees with NFKC
  on the NFKC-invariant inputs used there).
* `difflib.SequenceMatcher(None, a, b).ratio()` is likewise external and
  passed in as a parameter `sr`; where a property depends on its value
  the theorem carries the documented facts about it as hypotheses
  (`ratio ∈ [0,1]`, equal sequences give ratio 1).
* The regex class `\d` (Unicode decimal digits) is restricted to the
  Western, Arabic-Indic and Extended Arabic-Indic digits — exactly the
  digits the module's own number tables (`ARABIC_NUMBERS`, the digit
  classes of `clean_text`) handle; likewise `\s` / `str.strip` use the
  ASCII whitespace set.
-/

namespace TextProcessor

/-- The `\s` / `str.strip` whitespace set (ASCII part of Python's). -/
def isWS (c : Char) : Bool :=
  c = ' ' || c = '\t' || c = '\n' || c = '\x0d' || c = '\x0b' || c = '\x0c'

/-- `DIACRITIC_RANGES` of `AdvancedTextProcessor`: six inclusive codepoint
ranges of vowel, Uthmani annotation and presentation-form marks. -/
def DIACRITIC_RANGES : List (Nat × Nat) :=
  [(0x064B, 0x0652), (0x0653, 0x065F), (0x0670, 0x0671),
   (0x06D6, 0x06ED), (0x08D3, 0x08FF), (0xFBB2, 0xFBC1)]

/-- Membership in the diacritic ranges (the class compiled into
`diacritic_pattern`). -/
def isDiacritic (c : Char) : Bool :=
  DIACRITIC_RANGES.any fun r => r.1 ≤ c.toNat && c.toNat ≤ r.2

/-- The merged substitution dictionary `all_normalizations`: the six
`NORMALIZATION_RULES` sub-dictionaries merged by `dict.update`, keys in
first-insertion order, each key carrying its final value (so `U+0675`,
inserted by `alef_variants` and overwritten by `hamza_variants`, maps to
the empty string). -/
def all_normalizations : List (Char × List Char) :=
  [ -- alef_variants
    ('أ', ['ا']), ('إ', ['ا']), ('آ', ['ا']),
    ('ٱ', ['ا']), ('ﺃ', ['ا']), ('ﺇ', ['ا']),
    ('ﺁ', ['ا']), ('ﺍ', ['ا']), ('ﺎ', ['ا']),
    ('ٲ', ['ا']), ('ٳ', ['ا']), ('ٵ', []),
    -- yaa_variants
    ('ى', ['ي']), ('ﻯ', ['ي']), ('ﻰ', ['ي']),
    ('ﻱ', ['ي']), ('ﻲ', ['ي']), ('ي', ['ي']),
    ('ی', ['ي']),
    -- taa_marbuta
    ('ة', ['ه']), ('ﺓ', ['ه']), ('ﺔ', ['ه']),
    -- waw_variants
    ('ؤ', ['و']), ('ﻭ', ['و']), ('ﻮ', ['و']),
    ('ۄ', ['و']), ('ۅ', ['و']), ('ۆ', ['و']),
    -- hamza_variants
    ('ء', []), ('ئ', ['ي']), ('ٴ', []),
    -- letter_forms
    ('ﺏ', ['ب']), ('ﺐ', ['ب']), ('ﺑ', ['ب']),
    ('ﺒ', ['ب']),
    ('ﺕ', ['ت']), ('ﺖ', ['ت']), ('ﺗ', ['ت']),
    ('ﺘ', ['ت']),
    ('ﺙ', ['ث']), ('ﺚ', ['ث']), ('ﺛ', ['ث']),
    ('ﺜ', ['ث']),
    ('ﺝ', ['ج']), ('ﺞ', ['ج']), ('ﺟ', ['ج']),
    ('ﺠ', ['ج']),
    ('ﺡ', ['ح']), ('ﺢ', ['ح']), ('ﺣ', ['ح']),
    ('ﺤ', ['ح']),
    ('ﺥ', ['خ']), ('ﺦ', ['خ']), ('ﺧ', ['خ']),
    ('ﺨ', ['خ']),
    ('ﺩ', ['د']), ('ﺪ', ['د']),
    ('ﺫ', ['ذ']), ('ﺬ', ['ذ']),
    ('ﺭ', ['ر']), ('ﺮ', ['ر']),
    ('ﺯ', ['ز']), ('ﺰ', ['ز']),
    ('ﺱ', ['س']), ('ﺲ', ['س']), ('ﺳ', ['س']),
    ('ﺴ', ['س']),
    ('ﺵ', ['ش']), ('ﺶ', ['ش']), ('ﺷ', ['ش']),
    ('ﺸ', ['ش']),
    ('ﺹ', ['ص']), ('ﺺ', ['ص']), ('ﺻ', ['ص']),
    ('ﺼ', ['ص']),
    ('ﺽ', ['ض']), ('ﺾ', ['ض']), ('ﺿ', ['ض']),
    ('ﻀ', ['ض']),
    ('ﻁ', ['ط']), ('ﻂ', ['ط']), ('ﻃ', ['ط']),
    ('ﻄ', ['ط']),
    ('ﻅ', ['ظ']), ('ﻆ', ['ظ']), ('ﻇ', ['ظ']),
    ('ﻈ', ['ظ']),
    ('ﻉ', ['ع']), ('ﻊ', ['ع']), ('ﻋ', ['ع']),
    ('ﻌ', ['ع']),
    ('ﻍ', ['غ']), ('ﻎ', ['غ']), ('ﻏ', ['غ']),
    ('ﻐ', ['غ']),
    ('ﻑ', ['ف']), ('ﻒ', ['ف']), ('ﻓ', ['ف']),
    ('ﻔ', ['ف']),
    ('ﻕ', ['ق']), ('ﻖ', ['ق']), ('ﻗ', ['ق']),
    ('ﻘ', ['ق']),
    ('ﻙ', ['ك']), ('ﻚ', ['ك']), ('ﻛ', ['ك']),
    ('ﻜ', ['ك']), ('ک', ['ك']), ('ڪ', ['ك']),
    ('ﻝ', ['ل']), ('ﻞ', ['ل']), ('ﻟ', ['ل']),
    ('ﻠ', ['ل']),
    ('ﻡ', ['م']), ('ﻢ', ['م']), ('ﻣ', ['م']),
    ('ﻤ', ['م']),
    ('ﻥ', ['ن']), ('ﻦ', ['ن']), ('ﻧ', ['ن']),
    ('ﻨ', ['ن']),
    ('ﻩ', ['ه']), ('ﻪ', ['ه']), ('ﻫ', ['ه']),
    ('ﻬ', ['ه']),
    ('ﻻ', ['ل', 'ا']), ('ﻼ', ['ل', 'ا']) ]

/-- `text.replace(old, new)` for a single-character `old` (every key of
`all_normalizations` is one character). -/
def replaceChar (k : Char) (v : List Char) (t : List Char) : List Char :=
  t.flatMap fun c => if c = k then v else [c]

/-- The `for old, new in self.all_normalizations.items(): text = text.replace(old, new)`
loop of `normalize_text`. -/
def applySubstitutions : List (Char × List Char) → List Char → List Char
  | [], t => t
  | (k, v) :: rest, t => applySubstitutions rest (replaceChar k v t)

/-- `str.lstrip()` (whitespace). -/
def lstrip (t : List Char) : List Char := t.dropWhile isWS

/-- `str.rstrip()` (whitespace). -/
def rstrip (t : List Char) : List Char := (t.reverse.dropWhile isWS).reverse

/-- `str.strip()` (whitespace). -/
def strip (t : List Char) : List Char := rstrip (lstrip t)

/-- Worker for `runsBy`, accumulating the current (possibly empty) run. -/
def runsByGo (p : Char → Bool) : List Char → List Char → List (List Char)
  | [], acc => if acc = [] then [] else [acc]
  | c :: cs, acc =>
    if p c then runsByGo p cs (acc ++ [c])
    else if acc = [] then runsByGo p cs []
    else acc :: runsByGo p cs []

/-- Maximal runs of characters satisfying `p` (the matches of the regex
`[class]+`), in order. -/
def runsBy (p : Char → Bool) (l : List Char) : List (List Char) :=
  runsByGo p l []

/-- Worker for `subRuns`; the flag records whether the previous character
was part of a `p`-run. -/
def subRunsGo (p : Char → Bool) (rep : Char) : List Char → Bool → List Char
  | [], _ => []
  | c :: cs, inRun =>
    if p c then
      (if inRun then subRunsGo p rep cs true
       else rep :: subRunsGo p rep cs true)
    else c :: subRunsGo p rep cs false

/-- `re.sub(r'[class]+', rep, text)`: replace every maximal `p`-run by the
single character `rep`. -/
def subRuns (p : Char → Bool) (rep : Char) (l : List Char) : List Char :=
  subRunsGo p rep l false

/-- Python's binary `min` on floats, as the source uses it. -/
def qmin (a b : ℚ) : ℚ := if a ≤ b then a else b

/-- Python's binary `max` on floats, as the source uses it. -/
def qmax (a b : ℚ) : ℚ := if a ≤ b then b else a

/-- Normalization levels of `normalize_text`. -/
inductive Level | minimal | basic | full | aggressive
deriving DecidableEq

/-- The character class of the `aggressive` pass
`re.sub(r'[^ء-يٱ-ۓ\s]', ' ', text)`. -/
def isAggressiveKept (c : Char) : Bool :=
  (0x0621 ≤ c.toNat && c.toNat ≤ 0x064A) ||
  (0x0671 ≤ c.toNat && c.toNat ≤ 0x06D3) || isWS c

/-- `AdvancedTextProcessor.normalize_text(text, level)`.  `nfkc` stands for
`unicodedata.normalize('NFKC', ·)` (external library). -/
def normalize_text (nfkc : List Char → List Char) (text : List Char)
    (level : Level) : List Char :=
  if text = [] then []
  else
    let t1 := nfkc text
    if level = .minimal then t1
    else
      let t2 := applySubstitutions all_normalizations t1
      let t3 := if level = .full ∨ level = .aggressive then
                  t2.filter (fun c => !isDiacritic c)
                else t2
      let t4 := if level = .aggressive then
                  subRuns isWS ' ' (t3.map fun c =>
                    if isAggressiveKept c then c else ' ')
                else t3
      strip t4

/-- Western digits `0-9`. -/
def isAsciiDigit (c : Char) : Bool := '0' ≤ c && c ≤ '9'

/-- The 20 keys of `ARABIC_NUMBERS` (the class of `arabic_number_pattern`
and of `[٠-٩۰-۹]`): Arabic-Indic `U+0660–U+0669` and Extended Arabic-Indic
`U+06F0–U+06F9`. -/
def isArabicDigit (c : Char) : Bool :=
  (0x0660 ≤ c.toNat && c.toNat ≤ 0x0669) ||
  (0x06F0 ≤ c.toNat && c.toNat ≤ 0x06F9)

/-- Python's `\d` restricted to the digit systems this module handles
(see the module conventions above). -/
def isPyDigit (c : Char) : Bool := isAsciiDigit c || isArabicDigit c

/-- Decimal value of a digit character (what `ARABIC_NUMBERS` maps Arabic
digits to, and what `int()` assigns to each digit). -/
def digitVal (c : Char) : Nat :=
  if isAsciiDigit c then c.toNat - 0x30
  else if 0x0660 ≤ c.toNat && c.toNat ≤ 0x0669 then c.toNat - 0x0660
  else if 0x06F0 ≤ c.toNat && c.toNat ≤ 0x06F9 then c.toNat - 0x06F0
  else 0

/-- `int(run)` on a digit run. -/
def runValue (run : List Char) : Nat :=
  run.foldl (fun acc c => 10 * acc + digitVal c) 0

/-- The character class of `clean_text`'s
`re.sub(r'[﴾﴿۝۞\[\](){}«»"]', ' ', text)`. -/
def isSpecialSymbol (c : Char) : Bool :=
  c = '﴾' || c = '﴿' || c = '۝' || c = '۞' ||
  c = '[' || c = ']' || c = '(' || c = ')' ||
  c = '\x7b' || c = '\x7d' || c = '\xab' || c = '\xbb' || c = '"'

/-- `AdvancedTextProcessor.clean_text(text, keep_verse_numbers)`:
basic normalization, diacritic stripping, digit removal (or Arabic→Latin
digit conversion), special-symbol removal, whitespace collapse, strip. -/
def clean_text (nfkc : List Char → List Char) (text : List Char)
    (keep_verse_numbers : Bool := false) : List Char :=
  if text = [] then []
  else
    let t1 := normalize_text nfkc text .basic
    let t2 := t1.filter (fun c => !isDiacritic c)
    let t3 := if keep_verse_numbers then
                t2.map (fun c => if isArabicDigit c then
                  Char.ofNat (0x30 + digitVal c) else c)
              else subRuns isPyDigit ' ' t2
    let t4 := t3.map fun c => if isSpecialSymbol c then ' ' else c
    strip (subRuns isWS ' ' t4)

/-- The set of verse-number values produced by
`AdvancedTextProcessor.extract_verse_numbers`: the `int` value of every
maximal Arabic-digit run (`arabic_number_pattern`) together with the `int`
value of every maximal `\d+` run.  (The function's string-level
deduplication drops only entries whose value is already present, so the
value set is exactly this.) -/
def verseValues (text : List Char) : Finset Nat :=
  ((runsBy isArabicDigit text).map runValue ++
   (runsBy isPyDigit text).map runValue).toFinset

/-- `clean.split()`: maximal whitespace-separated words. -/
def splitWords (t : List Char) : List (List Char) :=
  runsBy (fun c => !isWS c) t

/-- Levenshtein edit distance (the value computed by the external
`Levenshtein.distance` C routine). -/
def levenshtein : List Char → List Char → Nat
  | [], b => b.length
  | a :: as, [] => (a :: as).length
  | a :: as, b :: bs =>
    if a = b then levenshtein as bs
    else 1 + min (levenshtein as (b :: bs))
              (min (levenshtein (a :: as) bs) (levenshtein as bs))
termination_by a b => a.length + b.length
decreasing_by all_goals simp_arith

/-- `AdvancedTextProcessor._levenshtein_similarity`. -/
def levenshtein_similarity (t1 t2 : List Char) : ℚ :=
  let maxLen := max t1.length t2.length
  if 0 < maxLen then 1 - (levenshtein t1 t2 : ℚ) / (maxLen : ℚ) else 0

/-- `AdvancedTextProcessor._calculate_symbols_bonus`.  The font manager is
`Option (Char → Bool)`: `none` when `self.font_manager` is absent, `some f`
with `f` standing for `font_manager.is_uthmani_symbol`. -/
def calculate_symbols_bonus (fm : Option (Char → Bool))
    (t1 t2 : List Char) : ℚ :=
  match fm with
  | none => 0
  | some f =>
    let symbols1 := (t1.filter f).toFinset
    let symbols2 := (t2.filter f).toFinset
    if symbols1 = ∅ ∧ symbols2 = ∅ then 0
    else if symbols1 ≠ ∅ ∧ symbols2 ≠ ∅ then
      (if 0 < (symbols1 ∪ symbols2).card then
        ((symbols1 ∩ symbols2).card : ℚ) / ((symbols1 ∪ symbols2).card : ℚ)
      else 0)
    else 0

/-- `AdvancedTextProcessor._advanced_similarity`: weighted word-set
Jaccard, character-set Jaccard, length ratio and Uthmani-symbols bonus. -/
def advanced_similarity (fm : Option (Char → Bool))
    (orig1 orig2 clean1 clean2 : List Char) : ℚ :=
  let words1 := (splitWords clean1).toFinset
  let words2 := (splitWords clean2).toFinset
  let word_similarity : ℚ :=
    if words1 ≠ ∅ ∧ words2 ≠ ∅ then
      (if 0 < (words1 ∪ words2).card then
        ((words1 ∩ words2).card : ℚ) / ((words1 ∪ words2).card : ℚ)
      else 0)
    else 0
  let chars1 := (clean1.filter (· ≠ ' ')).toFinset
  let chars2 := (clean2.filter (· ≠ ' ')).toFinset
  let char_similarity : ℚ :=
    if chars1 ≠ ∅ ∧ chars2 ≠ ∅ then
      (if 0 < (chars1 ∪ chars2).card then
        ((chars1 ∩ chars2).card : ℚ) / ((chars1 ∪ chars2).card : ℚ)
      else 0)
    else 0
  let length_similarity : ℚ :=
    if 0 < max clean1.length clean2.length then
      (min clean1.length clean2.length : ℚ) /
        (max clean1.length clean2.length : ℚ)
    else 0
  let symbols_bonus := calculate_symbols_bonus fm orig1 orig2
  word_similarity * 0.4 + char_similarity * 0.3 +
    length_similarity * 0.2 + symbols_bonus * 0.1

/-- `AdvancedTextProcessor._calculate_verse_number_bonus`.  The guard
`if not verses1 or not verses2` is equivalent to one of the value sets
being empty (every entry of `extract_verse_numbers` carries a value). -/
def calculate_verse_number_bonus (t1 t2 : List Char) : ℚ :=
  let values1 := verseValues t1
  let values2 := verseValues t2
  if values1 = ∅ ∨ values2 = ∅ then 0
  else if values1 = values2 then 1
  else if values1 ∩ values2 ≠ ∅ then 0.5
  else 0

/-- `AdvancedTextProcessor._combined_similarity`.  `sr` stands for the
external `SequenceMatcher(None, ·, ·).ratio()` used by
`_simple_similarity`. -/
def combined_similarity (fm : Option (Char → Bool))
    (sr : List Char → List Char → ℚ)
    (orig1 orig2 clean1 clean2 : List Char) : ℚ :=
  let simple := sr clean1 clean2
  let lev := levenshtein_similarity clean1 clean2
  let advanced := advanced_similarity fm orig1 orig2 clean1 clean2
  let verse_bonus := calculate_verse_number_bonus orig1 orig2
  qmin (simple * 0.3 + lev * 0.3 + advanced * 0.3 + verse_bonus * 0.1) 1

/-- The `method` argument of `text_similarity`. -/
inductive Method | simple | levenshtein | advanced | combined
deriving DecidableEq

/-- `AdvancedTextProcessor.text_similarity(text1, text2, method)`. -/
def text_similarity (nfkc : List Char → List Char)
    (fm : Option (Char → Bool)) (sr : List Char → List Char → ℚ)
    (text1 text2 : List Char) (method : Method) : ℚ :=
  if text1 = [] ∨ text2 = [] then 0
  else
    let clean1 := clean_text nfkc text1
    let clean2 := clean_text nfkc text2
    match method with
    | .simple => sr clean1 clean2
    | .levenshtein => levenshtein_similarity clean1 clean2
    | .advanced => advanced_similarity fm text1 text2 clean1 clean2
    | .combined => combined_similarity fm sr text1 text2 clean1 clean2

end TextProcessor

namespace AyatExtractor

open TextProcessor

/-- An axis-aligned bounding box; the source passes these around as
`[x1, y1, x2, y2]` lists of floats. -/
structure BBox where
  x1 : ℚ
  y1 : ℚ
  x2 : ℚ
  y2 : ℚ
deriving DecidableEq

/-- A metadata value (`Dict[str, Any]` entries used by this module are
strings or numbers). -/
inductive MetaVal
  | str (v : String)
  | num (v : ℚ)
deriving DecidableEq

/-- The `metadata` dictionary, as an association list. -/
abbrev Metadata := List (String × MetaVal)

/-- `metadata.get(key, default)` for a numeric entry. -/
def metaNum (m : Metadata) (key : String) (default : ℚ) : ℚ :=
  match m.find? (fun p => p.1 == key) with
  | some (_, .num v) => v
  | _ => default

/-- The `ExtractedText` dataclass of `ayat_extractor_main.py`. -/
structure ExtractedText where
  text : List Char
  bbox : BBox
  page : Nat
  source : String
  line_number : Option Nat := none
  confidence : ℚ := 1
  metadata : Metadata := []
deriving DecidableEq

/-- The `TextRegion` dataclass of `ai_analyzer.py` (fields this module
reads). -/
structure TextRegion where
  bbox : BBox
  text : List Char
  confidence : ℚ
  text_type : String
  font_type : String
deriving DecidableEq

/-- The `PageAnalysis` dataclass of `ai_analyzer.py` (fields this module
reads). -/
structure PageAnalysis where
  page_number : Nat
  text_regions : List TextRegion

/-- `AyatExtractor._calculate_bbox_overlap`: Intersection-over-Union of two
bounding boxes, `0.0` when the union is not positive. -/
def calculate_bbox_overlap (bbox1 bbox2 : BBox) : ℚ :=
  let x_overlap := qmax 0 (qmin bbox1.x2 bbox2.x2 - qmax bbox1.x1 bbox2.x1)
  let y_overlap := qmax 0 (qmin bbox1.y2 bbox2.y2 - qmax bbox1.y1 bbox2.y1)
  let intersection := x_overlap * y_overlap
  let area1 := (bbox1.x2 - bbox1.x1) * (bbox1.y2 - bbox1.y1)
  let area2 := (bbox2.x2 - bbox2.x1) * (bbox2.y2 - bbox2.y1)
  let union := area1 + area2 - intersection
  if 0 < union then intersection / union else 0

/-- The enhanced fragment built in `_merge_ai_results` when a traditional
fragment overlaps an AI region (trusts the traditional text, adopts the AI
bbox, takes the larger confidence). -/
def enhanced_text (trad : ExtractedText) (r : TextRegion) : ExtractedText :=
  { text := trad.text
    bbox := r.bbox
    page := trad.page
    source := "svg_ai_enhanced"
    confidence := qmax trad.confidence r.confidence
    metadata := trad.metadata ++
      [("ai_text_type", .str r.text_type), ("ai_font_type", .str r.font_type),
       ("ai_confidence", .num r.confidence)] }

/-- The standalone fragment built in `_merge_ai_results` for an unmatched
AI region of type `'ayah'`. -/
def ai_only_text (page : Nat) (r : TextRegion) : ExtractedText :=
  { text := r.text
    bbox := r.bbox
    page := page
    source := "ai_only"
    confidence := r.confidence
    metadata := [("ai_text_type", .str r.text_type),
                 ("ai_font_type", .str r.font_type)] }

/-- The inner loop of `_merge_ai_results`: scan the enumerated AI regions,
skipping used ones, keeping the best candidate with
`overlap > best_overlap and overlap > 0.5`. -/
def region_loop (bbox : BBox) (used : Finset Nat) :
    ℚ × Option (Nat × TextRegion) → List (Nat × TextRegion) →
    ℚ × Option (Nat × TextRegion)
  | acc, [] => acc
  | (best_overlap, best), (idx, r) :: rest =>
    if idx ∈ used then region_loop bbox used (best_overlap, best) rest
    else
      let overlap := calculate_bbox_overlap bbox r.bbox
      if best_overlap < overlap ∧ (0.5 : ℚ) < overlap then
        region_loop bbox used (overlap, some (idx, r)) rest
      else region_loop bbox used (best_overlap, best) rest

/-- The outer loop of `_merge_ai_results` over the traditional fragments,
threading the set of used AI-region indices. -/
def merge_loop (regions : List (Nat × TextRegion)) :
    List ExtractedText → Finset Nat → List ExtractedText × Finset Nat
  | [], used => ([], used)
  | trad :: rest, used =>
    match region_loop trad.bbox used (0, none) regions with
    | (_, some (idx, r)) =>
      let tail := merge_loop regions rest (insert idx used)
      (enhanced_text trad r :: tail.1, tail.2)
    | (_, none) =>
      let tail := merge_loop regions rest used
      (trad :: tail.1, tail.2)

/-- `AyatExtractor._merge_ai_results(traditional_texts, ai_analysis)`. -/
def merge_ai_results (traditional_texts : List ExtractedText)
    (ai_analysis : PageAnalysis) : List ExtractedText :=
  let idx_regions := ai_analysis.text_regions.enum
  let merged := merge_loop idx_regions traditional_texts ∅
  merged.1 ++ ((idx_regions.filter fun p =>
      !decide (p.1 ∈ merged.2) && (p.2.text_type == "ayah")).map
    fun p => ai_only_text ai_analysis.page_number p.2)

/-- `AyatExtractor._determine_extraction_method`. -/
def determine_extraction_method (extracted : ExtractedText) : String :=
  if extracted.source = "svg" then
    if 1 < metaNum extracted.metadata "merged_from" 0 then "svg_merged"
    else "svg_direct"
  else "pdf_text"

/-- `AyatExtractor._calculate_match_score(ref_text, ref_clean,
extracted_text, aya_number)`: combined similarity plus a `0.15`
verse-number bonus and an up-to-`0.1` Uthmani-symbols bonus, capped at
`1.0`.  (`ref_clean` is accepted but never read, exactly as in the
source.) -/
def calculate_match_score (nfkc : List Char → List Char)
    (fm : Option (Char → Bool)) (sr : List Char → List Char → ℚ)
    (ref_text ref_clean extracted_text : List Char) (aya_number : Nat) : ℚ :=
  let basic_score := text_similarity nfkc fm sr ref_text extracted_text .combined
  let verse_bonus : ℚ :=
    if aya_number ∈ verseValues extracted_text then 0.15 else 0
  let symbols_bonus : ℚ :=
    match fm with
    | none => 0
    | some f =>
      let ref_symbols := (ref_text.filter f).toFinset
      let ext_symbols := (extracted_text.filter f).toFinset
      if ref_symbols ≠ ∅ ∧ ext_symbols ≠ ∅ then
        (if 0 < (ref_symbols ∪ ext_symbols).card then
          ((ref_symbols ∩ ext_symbols).card : ℚ) /
            ((ref_symbols ∪ ext_symbols).card : ℚ) * 0.1
        else 0)
      else 0
  qmin (basic_score + verse_bonus + symbols_bonus) 1

/-- A row of the per-page verse dataframe (`hafs_data` columns read by
`match_ayat_with_texts`). -/
structure AyaRow where
  sura_no : Nat
  sura_name_ar : List Char
  sura_name_en : List Char
  aya_no : Nat
  aya_text : List Char
  text_clean : List Char
  page : Nat
deriving DecidableEq

/-- The `MatchedAyah` dataclass (its `metadata` map of debug details —
`line_number`, the `analyze_text` dump and `_get_match_details` — is not
modelled; no claim reads it). -/
structure MatchedAyah where
  page : Nat
  sura_no : Nat
  sura_name_ar : List Char
  sura_name_en : List Char
  aya_no : Nat
  text_uthmani : List Char
  text_extracted : List Char
  text_clean : List Char
  similarity : ℚ
  bbox : BBox
  source : String
  extraction_method : String
  confidence : ℚ
deriving DecidableEq

/-- The `MatchedAyah` record built in `match_ayat_with_texts` for a
selected candidate. -/
def make_match (nfkc : List Char → List Char) (page_num : Nat)
    (row : AyaRow) (best : ExtractedText) (best_score : ℚ) : MatchedAyah :=
  { page := page_num
    sura_no := row.sura_no
    sura_name_ar := row.sura_name_ar
    sura_name_en := row.sura_name_en
    aya_no := row.aya_no
    text_uthmani := row.aya_text
    text_extracted := best.text
    text_clean := clean_text nfkc best.text
    similarity := best_score
    bbox := best.bbox
    source := best.source
    extraction_method := determine_extraction_method best
    confidence := best.confidence * best_score }

/-- The candidate-selection loop of `match_ayat_with_texts`: scan the
enumerated extracted texts, skipping used ones, updating the best on
`score > best_score and score >= min_similarity`. -/
def select_loop (score : ExtractedText → ℚ) (min_similarity : ℚ)
    (used : Finset Nat) :
    ℚ × Option (Nat × ExtractedText) → List (Nat × ExtractedText) →
    ℚ × Option (Nat × ExtractedText)
  | acc, [] => acc
  | (best_score, best), (idx, e) :: rest =>
    if idx ∈ used then select_loop score min_similarity used (best_score, best) rest
    else
      let s := score e
      if best_score < s ∧ min_similarity ≤ s then
        select_loop score min_similarity used (s, some (idx, e)) rest
      else select_loop score min_similarity used (best_score, best) rest

/-- Candidate selection for one reference verse (`best_score` starts at
`0.0`, `best_match` at `None`). -/
def select_best_match (score : ExtractedText → ℚ) (min_similarity : ℚ)
    (used : Finset Nat) (texts : List (Nat × ExtractedText)) :
    ℚ × Option (Nat × ExtractedText) :=
  select_loop score min_similarity used (0, none) texts

/-- The per-verse loop of `match_ayat_with_texts`, also recording the
consumed candidate index (`best_text_idx` in the source). -/
def match_loop (nfkc : List Char → List Char) (fm : Option (Char → Bool))
    (sr : List Char → List Char → ℚ) (min_similarity : ℚ) (page_num : Nat)
    (texts : List (Nat × ExtractedText)) :
    List AyaRow → Finset Nat → List (Nat × MatchedAyah)
  | [], _ => []
  | row :: rest, used =>
    match select_best_match
        (fun e => calculate_match_score nfkc fm sr row.aya_text
          row.text_clean e.text row.aya_no)
        min_similarity used texts with
    | (best_score, some (idx, best)) =>
      (idx, make_match nfkc page_num row best best_score) ::
        match_loop nfkc fm sr min_similarity page_num texts rest
          (insert idx used)
    | (_, none) =>
      match_loop nfkc fm sr min_similarity page_num texts rest used

/-- `AyatExtractor.match_ayat_with_texts`, instrumented with the consumed
candidate index of every match. -/
def match_ayat_indexed (nfkc : List Char → List Char)
    (fm : Option (Char → Bool)) (sr : List Char → List Char → ℚ)
    (min_similarity : ℚ) (ayat : List AyaRow)
    (extracted_texts : List ExtractedText) (page_num : Nat) :
    List (Nat × MatchedAyah) :=
  let page_ayat := ayat.filter (fun r => r.page == page_num)
  match_loop nfkc fm sr min_similarity page_num extracted_texts.enum
    page_ayat ∅

/-- `AyatExtractor.match_ayat_with_texts(ayat_df, extracted_texts,
page_num)`. -/
def match_ayat_with_texts (nfkc : List Char → List Char)
    (fm : Option (Char → Bool)) (sr : List Char → List Char → ℚ)
    (min_similarity : ℚ) (ayat : List AyaRow)
    (extracted_texts : List ExtractedText) (page_num : Nat) :
    List MatchedAyah :=
  (match_ayat_indexed nfkc fm sr min_similarity ayat extracted_texts
    page_num).map Prod.snd

/-- One element of the parsed SVG tree in `root.iter()` order, carrying
the attributes `extract_from_svg` reads (`data-text`, `transform`, `x`,
`y`) and the nested text content assembled by
`_extract_text_element_content`. -/
structure SvgElem where
  tag : String
  data_text : Option (List Char)
  transform : String
  x : ℚ
  y : ℚ
  text_content : List Char

/-- `AyatExtractor.extract_from_svg(svg_path)`.  `ET.parse` is external
I/O: its outcome is passed in as `parsed : Except ε (List SvgElem)` (the
element sequence produced by `root.iter()`); the body's helper passes are
parameters: `coords` is `_extract_svg_coordinates` (already
`Option`-valued in the source), `decode` is `_decode_html_entities`,
`estimate` is `_estimate_text_bbox`, `postprocess` is
`_process_svg_texts`, and `page` is `_get_page_from_filename(svg_path)`.
The `except Exception: return []` wrapper is the `Except.error` arm. -/
def extract_from_svg {ε : Type}
    (coords : String → SvgElem → Option BBox)
    (decode : List Char → List Char)
    (estimate : List Char → ℚ → ℚ → BBox)
    (postprocess : List ExtractedText → List ExtractedText)
    (page : Nat) (parsed : Except ε (List SvgElem)) : List ExtractedText :=
  match parsed with
  | .error _ => []
  | .ok elems =>
    let texts := elems.flatMap fun elem =>
      if elem.tag.endsWith "use" then
        match elem.data_text with
        | some text_content =>
          if TextProcessor.strip text_content ≠ [] then
            match coords elem.transform elem with
            | some bbox =>
              [{ text := decode text_content
                 bbox := bbox
                 page := page
                 source := "svg"
                 metadata := [("transform", .str elem.transform)] }]
            | none => []
          else []
        | none => []
      else if elem.tag.endsWith "text" then
        if TextProcessor.strip elem.text_content ≠ [] then
          [{ text := elem.text_content
             bbox := estimate elem.text_content elem.x elem.y
             page := page
             source := "svg"
             metadata := [("element_type", .str "text")] }]
        else []
      else []
    postprocess texts

/-- A text span of a PyMuPDF `page.get_text("dict")` line. -/
structure PdfSpan where
  text : List Char
  bbox : BBox

/-- A line of a PyMuPDF text block. -/
structure PdfLine where
  line_no : Nat
  spans : List PdfSpan

/-- A PyMuPDF block: `btype = 0` for text blocks. -/
structure PdfBlock where
  btype : Nat
  lines : List PdfLine

/-- A PDF page as `get_text("dict")` exposes it. -/
abbrev PdfPage := List PdfBlock

/-- A PDF document: its pages (`doc.page_count` is the length). -/
abbrev PdfDoc := List PdfPage

/-- `[min x1, min y1, max x2, max y2]`: the running span-bbox union of
`extract_from_pdf`. -/
def union_bbox (b1 b2 : BBox) : BBox :=
  ⟨qmin b1.x1 b2.x1, qmin b1.y1 b2.y1, qmax b1.x2 b2.x2, qmax b1.y2 b2.y2⟩

/-- The per-line body of `extract_from_pdf`: concatenate the non-blank
spans, union their bboxes, and emit a fragment when the line text is
non-blank and a bbox was found.  (The `metadata` taken from the leaked
last-span variable is not modelled; no claim reads it.) -/
def pdf_line_fragment (page_num : Int) (line : PdfLine) :
    Option ExtractedText :=
  let folded := line.spans.foldl
    (fun (acc : List Char × Option BBox) span =>
      if TextProcessor.strip span.text ≠ [] then
        (acc.1 ++ span.text,
         match acc.2 with
         | none => some span.bbox
         | some b => some (union_bbox b span.bbox))
      else acc)
    ([], none)
  match folded.2 with
  | some bbox =>
    if TextProcessor.strip folded.1 ≠ [] then
      some { text := TextProcessor.strip folded.1
             bbox := bbox
             page := (page_num + 1).toNat
             source := "pdf"
             line_number := some line.line_no }
    else none
  | none => none

/-- `AyatExtractor.extract_from_pdf(pdf_path, page_num)`.  `fitz.open` is
external I/O: its outcome is passed in as `doc : Except ε PdfDoc`; the
`except Exception: return []` wrapper is the `Except.error` arm, and an
out-of-range page number yields `[]` before any block is read. -/
def extract_from_pdf {ε : Type} (doc : Except ε PdfDoc) (page_num : Int) :
    List ExtractedText :=
  match doc with
  | .error _ => []
  | .ok pages =>
    if page_num < 0 ∨ (pages.length : Int) ≤ page_num then []
    else
      let page := (pages.get? page_num.toNat).getD []
      (page.filter (fun b => b.btype == 0)).flatMap fun block =>
        block.lines.filterMap (pdf_line_fragment page_num)

/-- Area of an axis-aligned rectangle. -/
def rect_area (b : BBox) : ℚ := (b.x2 - b.x1) * (b.y2 - b.y1)

/-- Intersection area of two axis-aligned rectangles (clamped at 0). -/
def intersection_area (b1 b2 : BBox) : ℚ :=
  TextProcessor.qmax 0 (TextProcessor.qmin b1.x2 b2.x2 - TextProcessor.qmax b1.x1 b2.x1) *
  TextProcessor.qmax 0 (TextProcessor.qmin b1.y2 b2.y2 - TextProcessor.qmax b1.y1 b2.y1)

/-- Union area of two axis-aligned rectangles (inclusion–exclusion). -/
def union_area (b1 b2 : BBox) : ℚ :=
  rect_area b1 + rect_area b2 - intersection_area b1 b2

/-- IoU as the spec states it (§4.7/§8): intersection-area divided by
union-area, and `0` when the union area is `0`.  Stated separately from
`calculate_bbox_overlap` so that the two can be compared. -/
def iou_spec (b1 b2 : BBox) : ℚ :=
  if union_area b1 b2 = 0 then 0
  else intersection_area b1 b2 / union_area b1 b2

/-- A rectangle with sorted coordinates. -/
def wellFormed (b : BBox) : Prop := b.x1 ≤ b.x2 ∧ b.y1 ≤ b.y2

/-- The fragment of the spec's §8 IoU scenario (bbox `[0,0,10,10]`). -/
def demo_fragment : ExtractedText :=
  { text := ['ا'], bbox := ⟨0, 0, 10, 10⟩, page := 1, source := "svg" }

/-- The AI region of the spec's §8 IoU scenario (bbox `[5,5,15,15]`). -/
def demo_region : TextRegion :=
  { bbox := ⟨5, 5, 15, 15⟩, text := ['ب'], confidence := 9/10,
    text_type := "ayah", font_type := "uthmani" }

/-- A one-verse reference row used for concrete matcher runs. -/
def demo_row : AyaRow :=
  { sura_no := 1, sura_name_ar := ['ا'], sura_name_en := ['A'],
    aya_no := 1, aya_text := ['ب'], text_clean := ['ب'], page := 1 }

/-- A one-candidate extracted fragment used for concrete matcher runs. -/
def demo_ext : ExtractedText :=
  { text := ['ب'], bbox := ⟨0, 0, 1, 1⟩, page := 1, source := "svg" }

end AyatExtractor

namespace TextProcessor

/-- The Uthmani-symbol set of a text under an optional font manager
(empty when no font manager is configured). -/
def uthmaniSymbols (fm : Option (Char → Bool)) (t : List Char) : Finset Char :=
  match fm with
  | none => ∅
  | some f => (t.filter f).toFinset

/-- `SequenceMatcher(None, a, b).ratio()` restricted to its behaviour at
equal-sequence call sites, where difflib returns `1.0`; used to
instantiate the `sr` parameter in concrete runs whose similarity calls
only ever compare equal cleaned texts. -/
def srOnEqual : List Char → List Char → ℚ :=
  fun a b => if a = b then 1 else 0

end TextProcessor

namespace TextProcessor

lemma qmin_le_right (a b : ℚ) : qmin a b ≤ b := by
  unfold qmin; split <;> simp_all

lemma qmin_nonneg {a b : ℚ} (ha : 0 ≤ a) (hb : 0 ≤ b) : 0 ≤ qmin a b := by
  unfold qmin; split <;> assumption

lemma qmin_eq_left {a b : ℚ} (h : a ≤ b) : qmin a b = a := if_pos h

lemma qmax_le {a b c : ℚ} (ha : a ≤ c) (hb : b ≤ c) : qmax a b ≤ c := by
  unfold qmax; split <;> assumption

lemma le_qmax_left (a b : ℚ) : a ≤ qmax a b := by
  unfold qmax; split <;> simp_all

lemma qmax_nonneg {a b : ℚ} (ha : 0 ≤ a) : 0 ≤ qmax a b :=
  le_trans ha (le_qmax_left a b)

lemma levenshtein_self : ∀ a : List Char, levenshtein a a = 0
  | [] => by simp [levenshtein]
  | c :: cs => by
    have ih := levenshtein_self cs
    simp [levenshtein, ih]

lemma levenshtein_le_max (a b : List Char) :
    levenshtein a b ≤ max a.length b.length := by
  induction a generalizing b with
  | nil => simp [levenshtein]
  | cons c cs ih =>
    cases b with
    | nil => simp [levenshtein]
    | cons d ds =>
      by_cases hcd : c = d
      · have := ih ds
        simp only [levenshtein, if_pos hcd, List.length_cons,
          Nat.succ_max_succ]
        exact le_trans this (Nat.le_succ _)
      · have h1 : levenshtein cs ds ≤ max cs.length ds.length := ih ds
        simp only [levenshtein, if_neg hcd, List.length_cons,
          Nat.succ_max_succ]
        have h2 : min (levenshtein cs (d :: ds))
            (min (levenshtein (c :: cs) ds) (levenshtein cs ds)) ≤
            levenshtein cs ds :=
          le_trans (Nat.min_le_right _ _) (Nat.min_le_right _ _)
        omega

lemma levenshtein_similarity_self {c : List Char} (h : c ≠ []) :
    levenshtein_similarity c c = 1 := by
  have hlen : 0 < c.length := List.length_pos.mpr h
  simp [levenshtein_similarity, levenshtein_self, hlen]

lemma levenshtein_similarity_nonneg (a b : List Char) :
    0 ≤ levenshtein_similarity a b := by
  unfold levenshtein_similarity
  dsimp only
  split
  · rename_i hpos
    have hcast : (levenshtein a b : ℚ) ≤ ((max a.length b.length : ℕ) : ℚ) := by
      exact_mod_cast levenshtein_le_max a b
    have hden : (0 : ℚ) < ((max a.length b.length : ℕ) : ℚ) := by
      exact_mod_cast hpos
    have := div_le_one_of_le₀ hcast (le_of_lt hden)
    linarith
  · exact le_refl 0

lemma levenshtein_similarity_le_one (a b : List Char) :
    levenshtein_similarity a b ≤ 1 := by
  unfold levenshtein_similarity
  dsimp only
  split
  · rename_i hpos
    have hden : (0 : ℚ) < ((max a.length b.length : ℕ) : ℚ) := by
      exact_mod_cast hpos
    have hnn : (0 : ℚ) ≤ (levenshtein a b : ℚ) := by positivity
    have := div_nonneg hnn (le_of_lt hden)
    linarith
  · norm_num

lemma jaccard_ite_nonneg {α : Type} [DecidableEq α] (P : Prop) [Decidable P]
    (s t : Finset α) :
    0 ≤ (if P then
      (if 0 < (s ∪ t).card then ((s ∩ t).card : ℚ) / ((s ∪ t).card : ℚ)
       else 0) else (0 : ℚ)) := by
  split
  · split
    · positivity
    · exact le_refl 0
  · exact le_refl 0

lemma jaccard_ite_le_one {α : Type} [DecidableEq α] (P : Prop) [Decidable P]
    (s t : Finset α) :
    (if P then
      (if 0 < (s ∪ t).card then ((s ∩ t).card : ℚ) / ((s ∪ t).card : ℚ)
       else 0) else (0 : ℚ)) ≤ 1 := by
  split
  · split
    · rename_i hpos
      have hsub : (s ∩ t).card ≤ (s ∪ t).card :=
        Finset.card_le_card (Finset.inter_subset_union)
      have hden : (0 : ℚ) < ((s ∪ t).card : ℚ) := by exact_mod_cast hpos
      have hnum : ((s ∩ t).card : ℚ) ≤ ((s ∪ t).card : ℚ) := by
        exact_mod_cast hsub
      exact div_le_one_of_le₀ hnum (le_of_lt hden)
    · norm_num
  · norm_num

lemma jaccard_ite_self {α : Type} [DecidableEq α] (s : Finset α)
    (hs : s ≠ ∅) :
    (if s ≠ ∅ ∧ s ≠ ∅ then
      (if 0 < (s ∪ s).card then ((s ∩ s).card : ℚ) / ((s ∪ s).card : ℚ)
       else 0) else (0 : ℚ)) = 1 := by
  have hcard : 0 < s.card := Finset.card_pos.mpr (Finset.nonempty_of_ne_empty hs)
  rw [if_pos ⟨hs, hs⟩, Finset.union_self, Finset.inter_self, if_pos hcard]
  have : ((s.card : ℚ)) ≠ 0 := by exact_mod_cast Nat.pos_iff_ne_zero.mp hcard
  exact div_self this

lemma verse_bonus_nonneg (a b : List Char) :
    0 ≤ calculate_verse_number_bonus a b := by
  unfold calculate_verse_number_bonus
  dsimp only
  split
  · exact le_refl 0
  · split
    · norm_num
    · split <;> norm_num

lemma verse_bonus_le_one (a b : List Char) :
    calculate_verse_number_bonus a b ≤ 1 := by
  unfold calculate_verse_number_bonus
  dsimp only
  split
  · norm_num
  · split
    · norm_num
    · split <;> norm_num

lemma symbols_bonus_nonneg (fm : Option (Char → Bool)) (a b : List Char) :
    0 ≤ calculate_symbols_bonus fm a b := by
  unfold calculate_symbols_bonus
  match fm with
  | none => exact le_refl 0
  | some f =>
    simp only
    split
    · exact le_refl 0
    · split
      · split
        · positivity
        · exact le_refl 0
      · exact le_refl 0

lemma symbols_bonus_le_one (fm : Option (Char → Bool)) (a b : List Char) :
    calculate_symbols_bonus fm a b ≤ 1 := by
  unfold calculate_symbols_bonus
  match fm with
  | none => norm_num
  | some f =>
    simp only
    split
    · norm_num
    · split
      · split
        · rename_i hpos
          have hsub := Finset.card_le_card
            (Finset.inter_subset_union (s := (a.filter f).toFinset)
              (t := (b.filter f).toFinset))
          have hden : (0 : ℚ) <
              (((a.filter f).toFinset ∪ (b.filter f).toFinset).card : ℚ) := by
            exact_mod_cast hpos
          have hnum : ((((a.filter f).toFinset ∩ (b.filter f).toFinset).card : ℕ) : ℚ) ≤
              (((a.filter f).toFinset ∪ (b.filter f).toFinset).card : ℚ) := by
            exact_mod_cast hsub
          exact div_le_one_of_le₀ hnum (le_of_lt hden)
        · norm_num
      · norm_num

end TextProcessor

namespace TextProcessor

lemma mem_of_mem_lstrip {t : List Char} {a : Char} (h : a ∈ lstrip t) :
    a ∈ t :=
  (List.dropWhile_sublist isWS).subset h

lemma mem_of_mem_rstrip {t : List Char} {a : Char} (h : a ∈ rstrip t) :
    a ∈ t := by
  unfold rstrip at h
  have h1 : a ∈ t.reverse.dropWhile isWS := List.mem_reverse.mp h
  exact List.mem_reverse.mp ((List.dropWhile_sublist isWS).subset h1)

lemma mem_of_mem_strip {t : List Char} {a : Char} (h : a ∈ strip t) :
    a ∈ t :=
  mem_of_mem_lstrip (mem_of_mem_rstrip h)

/-- C8: for every NFKC function and every text `t`, no character of
`normalize_text nfkc t full` lies in any of the fixed diacritic ranges:
the diacritic-deletion pass runs after the glyph-substitution pass and
nothing after it reinserts characters. -/
theorem C8_normalize_full_no_diacritics (nfkc : List Char → List Char)
    (t : List Char) (c : Char) (h : c ∈ normalize_text nfkc t .full) :
    isDiacritic c = false := by
  unfold normalize_text at h
  by_cases ht : t = []
  · simp [ht] at h
  · rw [if_neg ht] at h
    simp only [reduceCtorEq, if_false, reduceIte, true_or, if_true] at h
    have h1 := mem_of_mem_strip h
    simp only [List.mem_filter] at h1
    simpa using h1.2

set_option maxRecDepth 4000 in
/-- C8 witness: `t = ['ب', fatha]` contains a diacritic; the theorem
applied to the character `'ب'` of `normalize_text id t full`. -/
theorem C8_witness : isDiacritic 'َ' = true ∧ isDiacritic 'ب' = false :=
  ⟨by decide,
   C8_normalize_full_no_diacritics id ['ب', 'َ'] 'ب' (by decide)⟩

end TextProcessor

namespace AyatExtractor

/-- C9: a page source that fails to parse yields the empty fragment
sequence from both collectors (`extract_from_svg` around `ET.parse`,
`extract_from_pdf` around `fitz.open`); for the PDF backend an
out-of-range page number likewise yields no fragments rather than an
error. -/
theorem C9_parse_failure_yields_empty {ε : Type}
    (coords : String → SvgElem → Option BBox)
    (decode : List Char → List Char)
    (estimate : List Char → ℚ → ℚ → BBox)
    (postprocess : List ExtractedText → List ExtractedText)
    (page : Nat) (err : ε) (page_num : Int) (pages : PdfDoc) :
    extract_from_svg coords decode estimate postprocess page
        (Except.error err) = [] ∧
    extract_from_pdf (Except.error err) page_num = [] ∧
    (page_num < 0 ∨ (pages.length : Int) ≤ page_num →
      @extract_from_pdf ε (Except.ok pages) page_num = []) := by
  refine ⟨rfl, rfl, fun hrange => ?_⟩
  unfold extract_from_pdf
  dsimp only
  rw [if_pos hrange]

lemma region_loop_nil (bbox : BBox) (used : Finset Nat)
    (acc : ℚ × Option (Nat × TextRegion)) :
    region_loop bbox used acc [] = acc := rfl

lemma merge_loop_no_regions :
    ∀ (texts : List ExtractedText) (used : Finset Nat),
      merge_loop [] texts used = (texts, used)
  | [], _ => rfl
  | trad :: rest, used => by
    simp [merge_loop, region_loop, merge_loop_no_regions rest used]

/-- C6: reconciling with an empty secondary region list returns the
primary fragment sequence unchanged, in the same order. -/
theorem C6_merge_with_no_regions_is_identity
    (traditional_texts : List ExtractedText) (page_number : Nat) :
    merge_ai_results traditional_texts ⟨page_number, []⟩ =
      traditional_texts := by
  unfold merge_ai_results
  simp [merge_loop_no_regions]

end AyatExtractor

namespace AyatExtractor

open TextProcessor

lemma qmin_le_left (a b : ℚ) : qmin a b ≤ a := by
  unfold qmin; split <;> simp_all <;> linarith

lemma calculate_bbox_overlap_eq (b1 b2 : BBox) :
    calculate_bbox_overlap b1 b2 =
      if 0 < union_area b1 b2 then
        intersection_area b1 b2 / union_area b1 b2
      else 0 := rfl

lemma intersection_area_nonneg (b1 b2 : BBox) :
    0 ≤ intersection_area b1 b2 := by
  unfold intersection_area
  have h1 := qmax_nonneg (a := (0 : ℚ))
    (b := qmin b1.x2 b2.x2 - qmax b1.x1 b2.x1) le_rfl
  have h2 := qmax_nonneg (a := (0 : ℚ))
    (b := qmin b1.y2 b2.y2 - qmax b1.y1 b2.y1) le_rfl
  exact mul_nonneg h1 h2

lemma intersection_area_le_left (b1 b2 : BBox) (h1 : wellFormed b1) :
    intersection_area b1 b2 ≤ rect_area b1 := by
  obtain ⟨hx, hy⟩ := h1
  have hxo : qmax 0 (qmin b1.x2 b2.x2 - qmax b1.x1 b2.x1) ≤ b1.x2 - b1.x1 := by
    apply qmax_le
    · linarith
    · have ha := qmin_le_left b1.x2 b2.x2
      have hb := le_qmax_left b1.x1 b2.x1
      linarith
  have hyo : qmax 0 (qmin b1.y2 b2.y2 - qmax b1.y1 b2.y1) ≤ b1.y2 - b1.y1 := by
    apply qmax_le
    · linarith
    · have ha := qmin_le_left b1.y2 b2.y2
      have hb := le_qmax_left b1.y1 b2.y1
      linarith
  have hxnn := qmax_nonneg (a := (0 : ℚ))
    (b := qmin b1.x2 b2.x2 - qmax b1.x1 b2.x1) le_rfl
  have hynn := qmax_nonneg (a := (0 : ℚ))
    (b := qmin b1.y2 b2.y2 - qmax b1.y1 b2.y1) le_rfl
  unfold intersection_area rect_area
  have hw : (0 : ℚ) ≤ b1.x2 - b1.x1 := by linarith
  exact mul_le_mul hxo hyo hynn (by linarith)

lemma union_area_nonneg {b1 b2 : BBox} (h1 : wellFormed b1)
    (h2 : wellFormed b2) : 0 ≤ union_area b1 b2 := by
  have hi := intersection_area_le_left b1 b2 h1
  have ha2 : 0 ≤ rect_area b2 := by
    unfold rect_area
    obtain ⟨hx, hy⟩ := h2
    exact mul_nonneg (by linarith) (by linarith)
  unfold union_area
  linarith

/-- C7: the reconciler's overlap value is exactly the spec's IoU
(intersection-area over union-area, `0` at zero union) on well-formed
rectangles; on the spec's §8 scenario it evaluates to `25/175`, which is
not above the `0.5` merge threshold, so the reconciler keeps the primary
fragment unchanged and appends the region as a standalone fragment
instead of merging the pair. -/
theorem C7_bbox_overlap_is_iou :
    (∀ b1 b2 : BBox, wellFormed b1 → wellFormed b2 →
      calculate_bbox_overlap b1 b2 = iou_spec b1 b2) ∧
    (∀ b1 b2 : BBox, union_area b1 b2 = 0 →
      calculate_bbox_overlap b1 b2 = 0) ∧
    calculate_bbox_overlap ⟨0, 0, 10, 10⟩ ⟨5, 5, 15, 15⟩ = 25 / 175 ∧
    ¬ ((0.5 : ℚ) < calculate_bbox_overlap ⟨0, 0, 10, 10⟩ ⟨5, 5, 15, 15⟩) ∧
    merge_ai_results [demo_fragment] ⟨1, [demo_region]⟩ =
      [demo_fragment, ai_only_text 1 demo_region] := by
  refine ⟨?_, ?_, ?_, ?_, ?_⟩
  · intro b1 b2 h1 h2
    rw [calculate_bbox_overlap_eq]
    unfold iou_spec
    rcases lt_trichotomy 0 (union_area b1 b2) with hu | hu | hu
    · rw [if_pos hu, if_neg (ne_of_gt hu)]
    · rw [if_neg (by rw [← hu]; exact lt_irrefl 0), if_pos hu.symm]
    · exact absurd hu (not_lt.mpr (union_area_nonneg h1 h2))
  · intro b1 b2 h
    rw [calculate_bbox_overlap_eq, h]
    norm_num
  · norm_num [calculate_bbox_overlap, qmin, qmax]
  · norm_num [calculate_bbox_overlap, qmin, qmax]
  · have hov : calculate_bbox_overlap demo_fragment.bbox demo_region.bbox
        = 1 / 7 := by
      norm_num [calculate_bbox_overlap, qmin, qmax, demo_fragment,
        demo_region]
    unfold merge_ai_results
    simp only [List.enum, List.enumFrom, merge_loop, region_loop, hov]
    norm_num [merge_loop, region_loop, hov, demo_region]

/-- C7 witness: the IoU/spec agreement instantiated on the scenario's two
(well-formed) rectangles. -/
theorem C7_witness :
    wellFormed ⟨0, 0, 10, 10⟩ ∧ wellFormed ⟨5, 5, 15, 15⟩ ∧
    calculate_bbox_overlap ⟨0, 0, 10, 10⟩ ⟨5, 5, 15, 15⟩ =
      iou_spec ⟨0, 0, 10, 10⟩ ⟨5, 5, 15, 15⟩ :=
  ⟨⟨by norm_num, by norm_num⟩, ⟨by norm_num, by norm_num⟩,
   C7_bbox_overlap_is_iou.1 _ _ ⟨by norm_num, by norm_num⟩
     ⟨by norm_num, by norm_num⟩⟩

end AyatExtractor

namespace AyatExtractor

lemma select_loop_none (score : ExtractedText → ℚ) (minSim : ℚ)
    (used : Finset Nat) :
    ∀ (l : List (Nat × ExtractedText)) (b : ℚ),
      (∀ p ∈ l, p.1 ∉ used → score p.2 < minSim) →
      select_loop score minSim used (b, none) l = (b, none)
  | [], b, _ => rfl
  | (i, e) :: rest, b, h => by
    unfold select_loop
    by_cases hi : i ∈ used
    · rw [if_pos hi]
      exact select_loop_none score minSim used rest b
        (fun p hp => h p (List.mem_cons_of_mem _ hp))
    · rw [if_neg hi]
      have hlt : score e < minSim := h (i, e) (List.mem_cons_self _ _) hi
      rw [if_neg (by rintro ⟨-, hge⟩; exact absurd hge (not_le.mpr hlt))]
      exact select_loop_none score minSim used rest b
        (fun p hp => h p (List.mem_cons_of_mem _ hp))

lemma select_loop_some (score : ExtractedText → ℚ) (minSim : ℚ)
    (used : Finset Nat) :
    ∀ (l : List (Nat × ExtractedText)) (acc : ℚ × Option (Nat × ExtractedText))
      (b' : ℚ) (i : Nat) (e : ExtractedText),
      0 ≤ acc.1 →
      select_loop score minSim used acc l = (b', some (i, e)) →
      acc = (b', some (i, e)) ∨
        ((i, e) ∈ l ∧ i ∉ used ∧ b' = score e ∧ minSim ≤ b' ∧ 0 < b')
  | [], acc, b', i, e, _, h => by
    left
    simpa [select_loop] using h
  | (j, f) :: rest, acc, b', i, e, hnn, h => by
    rw [show select_loop score minSim used acc ((j, f) :: rest) =
        (if j ∈ used then select_loop score minSim used acc rest
         else if acc.1 < score f ∧ minSim ≤ score f then
           select_loop score minSim used (score f, some (j, f)) rest
         else select_loop score minSim used acc rest) from by
      obtain ⟨b, o⟩ := acc; rfl] at h
    by_cases hj : j ∈ used
    · rw [if_pos hj] at h
      rcases select_loop_some score minSim used rest acc b' i e hnn h with
        hl | hr
      · exact Or.inl hl
      · exact Or.inr ⟨List.mem_cons_of_mem _ hr.1, hr.2⟩
    · rw [if_neg hj] at h
      by_cases hupd : acc.1 < score f ∧ minSim ≤ score f
      · rw [if_pos hupd] at h
        have hnn' : (0 : ℚ) ≤ score f := le_trans hnn (le_of_lt hupd.1)
        rcases select_loop_some score minSim used rest
            (score f, some (j, f)) b' i e hnn' h with hl | hr
        · rw [Prod.mk.injEq, Option.some.injEq, Prod.mk.injEq] at hl
          obtain ⟨h1, hj1, hj2⟩ := hl
          subst hj1
          subst hj2
          refine Or.inr ⟨List.mem_cons_self _ _, hj, h1.symm, ?_, ?_⟩
          · rw [← h1]; exact hupd.2
          · rw [← h1]; exact lt_of_le_of_lt hnn hupd.1
        · exact Or.inr ⟨List.mem_cons_of_mem _ hr.1, hr.2⟩
      · rw [if_neg hupd] at h
        rcases select_loop_some score minSim used rest acc b' i e hnn h with
          hl | hr
        · exact Or.inl hl
        · exact Or.inr ⟨List.mem_cons_of_mem _ hr.1, hr.2⟩

lemma select_best_match_some {score : ExtractedText → ℚ} {minSim : ℚ}
    {used : Finset Nat} {texts : List (Nat × ExtractedText)} {b' : ℚ}
    {i : Nat} {e : ExtractedText}
    (h : select_best_match score minSim used texts = (b', some (i, e))) :
    (i, e) ∈ texts ∧ i ∉ used ∧ b' = score e ∧ minSim ≤ b' ∧ 0 < b' := by
  rcases select_loop_some score minSim used texts (0, none) b' i e le_rfl h
    with hl | hr
  · exact absurd (congrArg Prod.snd hl) (by simp)
  · exact hr

lemma match_loop_mem (nfkc : List Char → List Char)
    (fm : Option (Char → Bool)) (sr : List Char → List Char → ℚ)
    (minSim : ℚ) (page : Nat) (texts : List (Nat × ExtractedText)) :
    ∀ (rows : List AyaRow) (used : Finset Nat) (p : Nat × MatchedAyah),
      p ∈ match_loop nfkc fm sr minSim page texts rows used →
      p.1 ∉ used ∧ minSim ≤ p.2.similarity ∧ 0 < p.2.similarity ∧
        ∃ e : ExtractedText, (p.1, e) ∈ texts ∧
          p.2.confidence = e.confidence * p.2.similarity
  | [], _, p, hp => absurd hp (by simp [match_loop])
  | row :: rest, used, p, hp => by
    rw [match_loop] at hp
    set sc := fun e : ExtractedText => calculate_match_score nfkc fm sr
      row.aya_text row.text_clean e.text row.aya_no with hsc
    rcases hsel : select_best_match sc minSim used texts with ⟨b', o⟩
    rcases o with _ | ⟨⟨idx, best⟩⟩
    · rw [hsel] at hp
      simp only at hp
      have := match_loop_mem nfkc fm sr minSim page texts rest used p hp
      exact this
    · rw [hsel] at hp
      simp only [List.mem_cons] at hp
      obtain ⟨hmem, hni, hbs, hms, hpos⟩ := select_best_match_some hsel
      rcases hp with hp | hp
      · subst hp
        refine ⟨hni, ?_, ?_, best, hmem, ?_⟩
        · simpa [make_match] using hms
        · simpa [make_match] using hpos
        · simp [make_match]
      · have := match_loop_mem nfkc fm sr minSim page texts rest
          (insert idx used) p hp
        refine ⟨fun hmemu => this.1 (Finset.mem_insert_of_mem hmemu),
          this.2.1, this.2.2.1, this.2.2.2⟩

lemma match_loop_fst_nodup (nfkc : List Char → List Char)
    (fm : Option (Char → Bool)) (sr : List Char → List Char → ℚ)
    (minSim : ℚ) (page : Nat) (texts : List (Nat × ExtractedText)) :
    ∀ (rows : List AyaRow) (used : Finset Nat),
      ((match_loop nfkc fm sr minSim page texts rows used).map
        Prod.fst).Nodup
  | [], _ => by simp [match_loop]
  | row :: rest, used => by
    rw [match_loop]
    rcases hsel : select_best_match (fun e => calculate_match_score nfkc fm
        sr row.aya_text row.text_clean e.text row.aya_no) minSim used texts
      with ⟨b', o⟩
    rcases o with _ | ⟨⟨idx, best⟩⟩
    · exact match_loop_fst_nodup nfkc fm sr minSim page texts rest used
    · simp only [List.map_cons, List.nodup_cons]
      constructor
      · intro hmem
        simp only [List.mem_map] at hmem
        obtain ⟨q, hq, hfst⟩ := hmem
        have := (match_loop_mem nfkc fm sr minSim page texts rest
          (insert idx used) q hq).1
        exact this (hfst ▸ Finset.mem_insert_self idx used)
      · exact match_loop_fst_nodup nfkc fm sr minSim page texts rest
          (insert idx used)

lemma match_loop_length (nfkc : List Char → List Char)
    (fm : Option (Char → Bool)) (sr : List Char → List Char → ℚ)
    (minSim : ℚ) (page : Nat) (texts : List (Nat × ExtractedText)) :
    ∀ (rows : List AyaRow) (used : Finset Nat),
      (match_loop nfkc fm sr minSim page texts rows used).length ≤
        rows.length
  | [], _ => by simp [match_loop]
  | row :: rest, used => by
    rw [match_loop]
    rcases select_best_match (fun e => calculate_match_score nfkc fm sr
        row.aya_text row.text_clean e.text row.aya_no) minSim used texts
      with ⟨b', o⟩
    rcases o with _ | ⟨⟨idx, best⟩⟩
    · exact le_trans
        (match_loop_length nfkc fm sr minSim page texts rest used)
        (Nat.le_succ _)
    · simpa using Nat.succ_le_succ
        (match_loop_length nfkc fm sr minSim page texts rest
          (insert idx used))

/-- C2: every `MatchedAyah` the per-page matcher emits has similarity at
least the configured `min_similarity`; and when every still-unused
candidate scores below the threshold, the selection step returns no
candidate, so that verse produces no match. -/
theorem C2_similarity_meets_threshold (nfkc : List Char → List Char)
    (fm : Option (Char → Bool)) (sr : List Char → List Char → ℚ)
    (min_similarity : ℚ) (ayat : List AyaRow)
    (extracted_texts : List ExtractedText) (page_num : Nat) :
    (∀ m ∈ match_ayat_with_texts nfkc fm sr min_similarity ayat
        extracted_texts page_num, min_similarity ≤ m.similarity) ∧
    (∀ (score : ExtractedText → ℚ) (used : Finset Nat),
      (∀ p ∈ extracted_texts.enum, p.1 ∉ used → score p.2 < min_similarity) →
      (select_best_match score min_similarity used extracted_texts.enum).2
        = none) := by
  constructor
  · intro m hm
    simp only [match_ayat_with_texts, match_ayat_indexed, List.mem_map]
      at hm
    obtain ⟨p, hp, hsnd⟩ := hm
    have := (match_loop_mem nfkc fm sr min_similarity page_num
      extracted_texts.enum _ ∅ p hp).2.1
    exact hsnd ▸ this
  · intro score used h
    rw [select_best_match,
      select_loop_none score min_similarity used extracted_texts.enum 0 h]

/-- C3: within one matching pass no extracted candidate index is consumed
twice, and the number of matches never exceeds the number of reference
verses registered for the page. -/
theorem C3_no_reuse_and_count_bound (nfkc : List Char → List Char)
    (fm : Option (Char → Bool)) (sr : List Char → List Char → ℚ)
    (min_similarity : ℚ) (ayat : List AyaRow)
    (extracted_texts : List ExtractedText) (page_num : Nat) :
    ((match_ayat_indexed nfkc fm sr min_similarity ayat extracted_texts
        page_num).map Prod.fst).Nodup ∧
    (match_ayat_with_texts nfkc fm sr min_similarity ayat extracted_texts
        page_num).length ≤
      (ayat.filter (fun r => r.page == page_num)).length := by
  constructor
  · exact match_loop_fst_nodup nfkc fm sr min_similarity page_num
      extracted_texts.enum _ ∅
  · rw [match_ayat_with_texts, List.length_map]
    exact match_loop_length nfkc fm sr min_similarity page_num
      extracted_texts.enum _ ∅

/-- C10: every emitted match's confidence is the matched candidate's
confidence multiplied by the match's similarity; hence when every
candidate confidence is at most 1, confidence never exceeds similarity. -/
theorem C10_confidence_is_product (nfkc : List Char → List Char)
    (fm : Option (Char → Bool)) (sr : List Char → List Char → ℚ)
    (min_similarity : ℚ) (ayat : List AyaRow)
    (extracted_texts : List ExtractedText) (page_num : Nat)
    (m : MatchedAyah)
    (hm : m ∈ match_ayat_with_texts nfkc fm sr min_similarity ayat
      extracted_texts page_num) :
    (∃ e ∈ extracted_texts, m.confidence = e.confidence * m.similarity) ∧
    ((∀ e ∈ extracted_texts, e.confidence ≤ 1) →
      m.confidence ≤ m.similarity) := by
  simp only [match_ayat_with_texts, match_ayat_indexed, List.mem_map] at hm
  obtain ⟨p, hp, hsnd⟩ := hm
  obtain ⟨-, -, hpos, e, hmem, hconf⟩ := match_loop_mem nfkc fm sr
    min_similarity page_num extracted_texts.enum _ ∅ p hp
  have hel : e ∈ extracted_texts :=
    List.get?_mem (List.mk_mem_enum_iff_get?.mp hmem)
  subst hsnd
  refine ⟨⟨e, hel, hconf⟩, fun hbound => ?_⟩
  rw [hconf]
  calc e.confidence * p.2.similarity ≤ 1 * p.2.similarity := by
        exact mul_le_mul_of_nonneg_right (hbound e hel) (le_of_lt hpos)
    _ = p.2.similarity := one_mul _

end AyatExtractor

namespace TextProcessor

lemma dropWhile_head_not {p : Char → Bool} :
    ∀ {l : List Char} {c : Char} {cs : List Char},
      List.dropWhile p l = c :: cs → p c = false := by
  intro l
  induction l with
  | nil => intro c cs h; simp at h
  | cons d ds ih =>
    intro c cs h
    rw [List.dropWhile_cons] at h
    split at h
    · exact ih h
    · rename_i hd
      injection h with h1 _
      subst h1
      simpa using hd

lemma rstrip_prefix (l : List Char) : rstrip l <+: l := by
  unfold rstrip
  obtain ⟨r, hr⟩ := List.dropWhile_suffix (l := l.reverse) isWS
  refine ⟨r.reverse, ?_⟩
  have : (r ++ l.reverse.dropWhile isWS).reverse = l.reverse.reverse := by
    rw [hr]
  simpa [List.reverse_append] using this

lemma strip_exists_not_ws {t : List Char} (h : strip t ≠ []) :
    ∃ c ∈ strip t, isWS c = false := by
  obtain ⟨c, cs, hc⟩ := List.exists_cons_of_ne_nil h
  obtain ⟨r, hr⟩ := rstrip_prefix (lstrip t)
  have hlt : lstrip t = c :: (cs ++ r) := by
    rw [← hr]
    show strip t ++ r = _
    rw [hc]
    simp
  have hdw : t.dropWhile isWS = c :: (cs ++ r) := hlt
  exact ⟨c, by rw [hc]; exact List.mem_cons_self _ _, dropWhile_head_not hdw⟩

lemma clean_text_exists_not_ws (nfkc : List Char → List Char)
    (t : List Char) (h : clean_text nfkc t ≠ []) :
    ∃ c ∈ clean_text nfkc t, isWS c = false := by
  unfold clean_text at h ⊢
  by_cases ht : t = []
  · simp [ht] at h
  · rw [if_neg ht] at h ⊢
    exact strip_exists_not_ws h

lemma runsByGo_acc_ne_nil {p : Char → Bool} :
    ∀ (l : List Char) (acc : List Char), acc ≠ [] → runsByGo p l acc ≠ []
  | [], acc, h => by simp [runsByGo, h]
  | c :: cs, acc, h => by
    unfold runsByGo
    by_cases hpc : p c
    · rw [if_pos hpc]
      exact runsByGo_acc_ne_nil cs (acc ++ [c]) (by simp)
    · rw [if_neg hpc, if_neg h]
      simp

lemma runsByGo_ne_nil {p : Char → Bool} :
    ∀ (l : List Char) (acc : List Char),
      (∃ c ∈ l, p c) → runsByGo p l acc ≠ []
  | [], _, h => absurd h (by simp)
  | c :: cs, acc, h => by
    unfold runsByGo
    by_cases hpc : p c
    · rw [if_pos hpc]
      exact runsByGo_acc_ne_nil cs (acc ++ [c]) (by simp)
    · rw [if_neg hpc]
      obtain ⟨d, hd, hpd⟩ := h
      rcases List.mem_cons.mp hd with heq | hd'
      · exact absurd (heq ▸ hpd) (by simpa using hpc)
      · by_cases hacc : acc = []
        · rw [if_pos hacc]
          exact runsByGo_ne_nil cs [] ⟨d, hd', hpd⟩
        · rw [if_neg hacc]
          simp

lemma splitWords_ne_nil {l : List Char} (h : ∃ c ∈ l, isWS c = false) :
    splitWords l ≠ [] := by
  obtain ⟨c, hc, hws⟩ := h
  exact runsByGo_ne_nil l [] ⟨c, hc, by simp [hws]⟩

lemma advanced_similarity_self (orig1 orig2 c : List Char) (hne : c ≠ [])
    (hws : ∃ ch ∈ c, isWS ch = false) :
    advanced_similarity none orig1 orig2 c c = 9/10 := by
  have hW : (splitWords c).toFinset ≠ ∅ := by
    rw [Ne, List.toFinset_eq_empty_iff]
    exact splitWords_ne_nil hws
  have hC : (c.filter (· ≠ ' ')).toFinset ≠ ∅ := by
    rw [Ne, List.toFinset_eq_empty_iff]
    obtain ⟨ch, hch, hchws⟩ := hws
    have : ch ≠ ' ' := by
      intro heq
      rw [heq] at hchws
      simp [isWS] at hchws
    exact fun hf => by
      have : ch ∈ c.filter (· ≠ ' ') := List.mem_filter.mpr ⟨hch, by simpa⟩
      rw [hf] at this
      simp at this
  have hlen : 0 < c.length := List.length_pos.mpr hne
  unfold advanced_similarity
  dsimp only
  rw [jaccard_ite_self _ hW, jaccard_ite_self _ hC]
  simp only [min_self, max_self, inf_idem, sup_idem]
  rw [if_pos hlen]
  have hcast : ((c.length : ℚ)) ≠ 0 := by exact_mod_cast Nat.pos_iff_ne_zero.mp hlen
  rw [div_self hcast]
  show 1 * 0.4 + 1 * 0.3 + 1 * 0.2 + calculate_symbols_bonus none orig1 orig2 * 0.1 = 9/10
  show 1 * 0.4 + 1 * 0.3 + 1 * 0.2 + 0 * 0.1 = 9/10
  norm_num

lemma combined_similarity_self_of_clean (sr : List Char → List Char → ℚ)
    (orig1 orig2 c : List Char) (hne : c ≠ [])
    (hws : ∃ ch ∈ c, isWS ch = false) (hsr : sr c c = 1) :
    combined_similarity none sr orig1 orig2 c c =
      87/100 + calculate_verse_number_bonus orig1 orig2 * (1/10) := by
  have hvb0 := verse_bonus_nonneg orig1 orig2
  have hvb1 := verse_bonus_le_one orig1 orig2
  unfold combined_similarity
  dsimp only
  rw [hsr, levenshtein_similarity_self hne,
    advanced_similarity_self orig1 orig2 c hne hws]
  rw [qmin_eq_left (by linarith)]
  ring

end TextProcessor

namespace TextProcessor

set_option maxRecDepth 8000 in
lemma clean_text_id_b : clean_text id ['ب'] = ['ب'] := by decide

set_option maxRecDepth 8000 in
lemma clean_text_id_b1 : clean_text id ['ب', ' ', '١'] = ['ب'] := by decide

set_option maxRecDepth 8000 in
lemma clean_text_id_bsp : clean_text id ['ب', ' '] = ['ب'] := by decide

set_option maxRecDepth 8000 in
lemma verseValues_b : verseValues ['ب'] = ∅ := by decide

set_option maxRecDepth 8000 in
lemma verseValues_bsp : verseValues ['ب', ' '] = ∅ := by decide

set_option maxRecDepth 8000 in
lemma verseValues_b1 : verseValues ['ب', ' ', '١'] = {1} := by decide

lemma vb_b : calculate_verse_number_bonus ['ب'] ['ب'] = 0 := by
  unfold calculate_verse_number_bonus
  dsimp only
  rw [verseValues_b]
  simp

lemma vb_b1 : calculate_verse_number_bonus ['ب', ' ', '١'] ['ب', ' ', '١']
    = 1 := by
  unfold calculate_verse_number_bonus
  dsimp only
  rw [verseValues_b1]
  simp

lemma clean_text_nil (nfkc : List Char → List Char) :
    clean_text nfkc [] = [] := by
  simp [clean_text]

lemma text_similarity_combined_of_clean_eq (nfkc : List Char → List Char)
    (sr : List Char → List Char → ℚ) (a b : List Char)
    (hab : clean_text nfkc a = clean_text nfkc b)
    (hne : clean_text nfkc a ≠ [])
    (hsr : sr (clean_text nfkc a) (clean_text nfkc a) = 1) :
    text_similarity nfkc none sr a b .combined =
      87/100 + calculate_verse_number_bonus a b * (1/10) := by
  have ha : a ≠ [] := fun h => hne (by rw [h]; exact clean_text_nil nfkc)
  have hb : b ≠ [] := fun h => by
    rw [h, clean_text_nil nfkc] at hab
    exact hne hab
  unfold text_similarity
  rw [if_neg (by simp [ha, hb])]
  dsimp only
  rw [← hab]
  exact combined_similarity_self_of_clean sr a b (clean_text nfkc a) hne
    (clean_text_exists_not_ws nfkc a hne) hsr

/-- C1 (amended): for a candidate/reference pair whose cleaned texts are
equal and non-empty, and with no font manager configured, the combined
scorer returns `0.87 + 0.1·verse_bonus` — a value in `[0.87, 0.97]`,
never `1.0` (the claim's `score(a,a) == 1.0` does not hold: the
`_advanced_similarity` component of an exact match contributes only
`0.9`, so the weighted sum cannot reach `1`). -/
theorem C1_amended_exact_match_score (nfkc : List Char → List Char)
    (sr : List Char → List Char → ℚ) (a b : List Char)
    (hab : clean_text nfkc a = clean_text nfkc b)
    (hne : clean_text nfkc a ≠ [])
    (hsr : sr (clean_text nfkc a) (clean_text nfkc a) = 1) :
    87/100 ≤ text_similarity nfkc none sr a b .combined ∧
    text_similarity nfkc none sr a b .combined ≤ 97/100 ∧
    text_similarity nfkc none sr a b .combined ≠ 1 := by
  have h := text_similarity_combined_of_clean_eq nfkc sr a b hab hne hsr
  have h0 := verse_bonus_nonneg a b
  have h1 := verse_bonus_le_one a b
  refine ⟨by rw [h]; linarith, by rw [h]; linarith, ?_⟩
  rw [h]
  intro hcontra
  linarith

/-- C1 counterexample: the single-letter text `'ب'` has non-empty cleaned
form and, scored against itself (difflib ratio 1 on the equal cleaned
pair, no font manager), the combined scorer returns exactly `0.87`,
not `1.0`. -/
theorem C1_counterexample_self_score_below_one :
    clean_text id ['ب'] ≠ [] ∧
    text_similarity id none srOnEqual ['ب'] ['ب'] .combined = 87/100 ∧
    text_similarity id none srOnEqual ['ب'] ['ب'] .combined ≠ 1 := by
  have h := text_similarity_combined_of_clean_eq id srOnEqual ['ب'] ['ب']
    rfl (by rw [clean_text_id_b]; simp)
    (by rw [clean_text_id_b]; simp [srOnEqual])
  rw [vb_b] at h
  refine ⟨by rw [clean_text_id_b]; simp, by rw [h]; norm_num,
    by rw [h]; norm_num⟩

/-- C1 witness: the amended theorem applied to the concrete pair
`('ب', 'ب')` with `nfkc = id` and the diagonal ratio model. -/
theorem C1_witness :
    87/100 ≤ text_similarity id none srOnEqual ['ب'] ['ب'] .combined ∧
    text_similarity id none srOnEqual ['ب'] ['ب'] .combined ≤ 97/100 ∧
    text_similarity id none srOnEqual ['ب'] ['ب'] .combined ≠ 1 :=
  C1_amended_exact_match_score id srOnEqual ['ب'] ['ب'] rfl
    (by rw [clean_text_id_b]; simp)
    (by rw [clean_text_id_b]; simp [srOnEqual])

end TextProcessor

namespace TextProcessor

lemma symbols_bonus_congr (fm : Option (Char → Bool)) {a a' b b' : List Char}
    (ha : uthmaniSymbols fm a = uthmaniSymbols fm a')
    (hb : uthmaniSymbols fm b = uthmaniSymbols fm b') :
    calculate_symbols_bonus fm a b = calculate_symbols_bonus fm a' b' := by
  cases fm with
  | none => rfl
  | some f =>
    have ha' : (a.filter f).toFinset = (a'.filter f).toFinset := ha
    have hb' : (b.filter f).toFinset = (b'.filter f).toFinset := hb
    unfold calculate_symbols_bonus
    dsimp only
    rw [ha', hb']

lemma verse_bonus_congr {a a' b b' : List Char}
    (ha : verseValues a = verseValues a')
    (hb : verseValues b = verseValues b') :
    calculate_verse_number_bonus a b = calculate_verse_number_bonus a' b' := by
  unfold calculate_verse_number_bonus
  dsimp only
  rw [ha, hb]

/-- C4 (amended): the combined score depends only on the cleaned forms of
the two inputs, their verse-number value sets (raw digits survive into
the verse-number bonus even though cleaning removes them), their
Uthmani-symbol sets when a font manager is configured, and the raw
emptiness of each input (the `if not text1 or not text2` guard).  The
claim's stronger statement — dependence on the cleaned forms alone — is
false; see the counterexample. -/
theorem C4_amended_score_determined_by_clean_verse_symbols
    (nfkc : List Char → List Char) (fm : Option (Char → Bool))
    (sr : List Char → List Char → ℚ) (a a' b b' : List Char)
    (hca : clean_text nfkc a = clean_text nfkc a')
    (hcb : clean_text nfkc b = clean_text nfkc b')
    (hva : verseValues a = verseValues a')
    (hvb : verseValues b = verseValues b')
    (hsa : uthmaniSymbols fm a = uthmaniSymbols fm a')
    (hsb : uthmaniSymbols fm b = uthmaniSymbols fm b')
    (hea : a = [] ↔ a' = []) (heb : b = [] ↔ b' = []) :
    text_similarity nfkc fm sr a b .combined =
      text_similarity nfkc fm sr a' b' .combined := by
  unfold text_similarity
  by_cases hg : a = [] ∨ b = []
  · rw [if_pos hg, if_pos (by
      rcases hg with h | h
      · exact Or.inl (hea.mp h)
      · exact Or.inr (heb.mp h))]
  · rw [if_neg hg, if_neg (by
      rintro (h | h)
      · exact hg (Or.inl (hea.mpr h))
      · exact hg (Or.inr (heb.mpr h)))]
    dsimp only
    rw [hca, hcb]
    unfold combined_similarity
    dsimp only
    rw [verse_bonus_congr hva hvb]
    unfold advanced_similarity
    dsimp only
    rw [symbols_bonus_congr fm hsa hsb]

/-- C4 counterexample: `a = "ب ١"` and `a' = "ب"` have the same cleaned
form (cleaning removes digits), yet the combined self-scores differ —
`0.97` vs `0.87` — because the verse-number bonus reads the raw digits. -/
theorem C4_counterexample_raw_digits_change_score :
    clean_text id ['ب', ' ', '١'] = clean_text id ['ب'] ∧
    text_similarity id none srOnEqual ['ب', ' ', '١'] ['ب', ' ', '١']
        .combined ≠
      text_similarity id none srOnEqual ['ب'] ['ب'] .combined := by
  have h1 := text_similarity_combined_of_clean_eq id srOnEqual
    ['ب', ' ', '١'] ['ب', ' ', '١'] rfl
    (by rw [clean_text_id_b1]; simp)
    (by rw [clean_text_id_b1]; simp [srOnEqual])
  have h2 := text_similarity_combined_of_clean_eq id srOnEqual ['ب'] ['ب']
    rfl (by rw [clean_text_id_b]; simp)
    (by rw [clean_text_id_b]; simp [srOnEqual])
  rw [vb_b1] at h1
  rw [vb_b] at h2
  exact ⟨by rw [clean_text_id_b1, clean_text_id_b],
    by rw [h1, h2]; norm_num⟩

/-- C4 witness: the amended theorem applied to `a = "ب "`, `a' = "ب"`
(equal cleaned forms, equal — empty — verse-number sets, no font
manager). -/
theorem C4_witness :
    text_similarity id none srOnEqual ['ب', ' '] ['ب'] .combined =
      text_similarity id none srOnEqual ['ب'] ['ب'] .combined :=
  C4_amended_score_determined_by_clean_verse_symbols id none srOnEqual
    ['ب', ' '] ['ب'] ['ب'] ['ب']
    (by rw [clean_text_id_bsp, clean_text_id_b]) rfl
    (by rw [verseValues_bsp, verseValues_b]) rfl rfl rfl
    (by simp) (by simp)

end TextProcessor

namespace TextProcessor

lemma advanced_similarity_nonneg (fm : Option (Char → Bool))
    (o1 o2 c1 c2 : List Char) :
    0 ≤ advanced_similarity fm o1 o2 c1 c2 := by
  unfold advanced_similarity
  dsimp only
  have hw := jaccard_ite_nonneg
    ((splitWords c1).toFinset ≠ ∅ ∧ (splitWords c2).toFinset ≠ ∅)
    (splitWords c1).toFinset (splitWords c2).toFinset
  have hc := jaccard_ite_nonneg
    ((c1.filter (· ≠ ' ')).toFinset ≠ ∅ ∧ (c2.filter (· ≠ ' ')).toFinset ≠ ∅)
    (c1.filter (· ≠ ' ')).toFinset (c2.filter (· ≠ ' ')).toFinset
  have hl : 0 ≤ (if 0 < max c1.length c2.length then
      ((c1.length : ℚ) ⊓ (c2.length : ℚ)) / ((c1.length : ℚ) ⊔ (c2.length : ℚ))
      else (0 : ℚ)) := by
    split
    · apply div_nonneg
      · exact le_min (by positivity) (by positivity)
      · exact le_trans (by positivity) (le_max_left _ _)
    · exact le_refl 0
  have hs := symbols_bonus_nonneg fm o1 o2
  linarith

lemma advanced_similarity_le_one (fm : Option (Char → Bool))
    (o1 o2 c1 c2 : List Char) :
    advanced_similarity fm o1 o2 c1 c2 ≤ 1 := by
  unfold advanced_similarity
  dsimp only
  have hw := jaccard_ite_le_one
    ((splitWords c1).toFinset ≠ ∅ ∧ (splitWords c2).toFinset ≠ ∅)
    (splitWords c1).toFinset (splitWords c2).toFinset
  have hw0 := jaccard_ite_nonneg
    ((splitWords c1).toFinset ≠ ∅ ∧ (splitWords c2).toFinset ≠ ∅)
    (splitWords c1).toFinset (splitWords c2).toFinset
  have hc := jaccard_ite_le_one
    ((c1.filter (· ≠ ' ')).toFinset ≠ ∅ ∧ (c2.filter (· ≠ ' ')).toFinset ≠ ∅)
    (c1.filter (· ≠ ' ')).toFinset (c2.filter (· ≠ ' ')).toFinset
  have hc0 := jaccard_ite_nonneg
    ((c1.filter (· ≠ ' ')).toFinset ≠ ∅ ∧ (c2.filter (· ≠ ' ')).toFinset ≠ ∅)
    (c1.filter (· ≠ ' ')).toFinset (c2.filter (· ≠ ' ')).toFinset
  have hl : (if 0 < max c1.length c2.length then
      ((c1.length : ℚ) ⊓ (c2.length : ℚ)) / ((c1.length : ℚ) ⊔ (c2.length : ℚ))
      else (0 : ℚ)) ≤ 1 := by
    split
    · rename_i hpos
      apply div_le_one_of_le₀ (inf_le_sup)
      exact le_trans (by positivity) (le_max_left _ _)
    · norm_num
  have hl0 : 0 ≤ (if 0 < max c1.length c2.length then
      ((c1.length : ℚ) ⊓ (c2.length : ℚ)) / ((c1.length : ℚ) ⊔ (c2.length : ℚ))
      else (0 : ℚ)) := by
    split
    · apply div_nonneg
      · exact le_min (by positivity) (by positivity)
      · exact le_trans (by positivity) (le_max_left _ _)
    · exact le_refl 0
  have hs := symbols_bonus_le_one fm o1 o2
  have hs0 := symbols_bonus_nonneg fm o1 o2
  linarith

lemma combined_similarity_nonneg (fm : Option (Char → Bool))
    (sr : List Char → List Char → ℚ) (o1 o2 c1 c2 : List Char)
    (h0 : 0 ≤ sr c1 c2) :
    0 ≤ combined_similarity fm sr o1 o2 c1 c2 := by
  unfold combined_similarity
  dsimp only
  apply qmin_nonneg _ (by norm_num)
  have hlev := levenshtein_similarity_nonneg c1 c2
  have hadv := advanced_similarity_nonneg fm o1 o2 c1 c2
  have hvb := verse_bonus_nonneg o1 o2
  linarith

lemma combined_similarity_le_one (fm : Option (Char → Bool))
    (sr : List Char → List Char → ℚ) (o1 o2 c1 c2 : List Char) :
    combined_similarity fm sr o1 o2 c1 c2 ≤ 1 :=
  qmin_le_right _ _

lemma srOnEqual_bounds (x y : List Char) :
    0 ≤ srOnEqual x y ∧ srOnEqual x y ≤ 1 := by
  unfold srOnEqual
  constructor
  · split
    · norm_num
    · norm_num
  · split
    · norm_num
    · norm_num

end TextProcessor

namespace AyatExtractor

open TextProcessor

/-- C5: whenever the external sequence-ratio routine returns values in
`[0,1]` (as difflib documents), the combined similarity score lies in
`[0,1]` for every pair of texts, and the page matcher's final match score
(combined score plus the `0.15` verse-number bonus and the up-to-`0.1`
symbols bonus, capped at `1.0`) lies in `[0,1]` as well. -/
theorem C5_scores_bounded (nfkc : List Char → List Char)
    (fm : Option (Char → Bool)) (sr : List Char → List Char → ℚ)
    (hsr : ∀ x y : List Char, 0 ≤ sr x y ∧ sr x y ≤ 1)
    (text1 text2 ref_text ref_clean extracted_text : List Char)
    (aya_number : Nat) :
    (0 ≤ text_similarity nfkc fm sr text1 text2 .combined ∧
      text_similarity nfkc fm sr text1 text2 .combined ≤ 1) ∧
    (0 ≤ calculate_match_score nfkc fm sr ref_text ref_clean
        extracted_text aya_number ∧
      calculate_match_score nfkc fm sr ref_text ref_clean extracted_text
        aya_number ≤ 1) := by
  have hts : ∀ a b : List Char,
      0 ≤ text_similarity nfkc fm sr a b .combined ∧
      text_similarity nfkc fm sr a b .combined ≤ 1 := by
    intro a b
    unfold text_similarity
    split
    · norm_num
    · dsimp only
      exact ⟨combined_similarity_nonneg fm sr a b _ _ (hsr _ _).1,
        combined_similarity_le_one fm sr a b _ _⟩
  refine ⟨hts text1 text2, ?_, qmin_le_right _ _⟩
  unfold calculate_match_score
  dsimp only
  apply qmin_nonneg _ (by norm_num)
  have hb := (hts ref_text extracted_text).1
  have hvb' : 0 ≤ (if aya_number ∈ verseValues extracted_text
      then (0.15 : ℚ) else 0) := by
    split
    · norm_num
    · exact le_refl 0
  cases fm with
  | none =>
    simp only at hb ⊢
    linarith
  | some f =>
    have hsb' : 0 ≤ (if (ref_text.filter f).toFinset ≠ ∅ ∧
        (extracted_text.filter f).toFinset ≠ ∅ then
        (if 0 < ((ref_text.filter f).toFinset ∪
            (extracted_text.filter f).toFinset).card then
          (((ref_text.filter f).toFinset ∩
              (extracted_text.filter f).toFinset).card : ℚ) /
            (((ref_text.filter f).toFinset ∪
              (extracted_text.filter f).toFinset).card : ℚ) * 0.1
        else 0) else (0 : ℚ)) := by
      split
      · split
        · positivity
        · exact le_refl 0
      · exact le_refl 0
    simp only at hb hsb' ⊢
    linarith

/-- C5 witness: the bounds instantiated with the diagonal ratio model
(whose values lie in `[0,1]`) on concrete texts. -/
theorem C5_witness :
    (0 ≤ text_similarity id none TextProcessor.srOnEqual ['ب'] ['ب']
        .combined ∧
      text_similarity id none TextProcessor.srOnEqual ['ب'] ['ب']
        .combined ≤ 1) ∧
    (0 ≤ calculate_match_score id none TextProcessor.srOnEqual ['ب'] ['ب']
        ['ب'] 1 ∧
      calculate_match_score id none TextProcessor.srOnEqual ['ب'] ['ب']
        ['ب'] 1 ≤ 1) :=
  C5_scores_bounded id none TextProcessor.srOnEqual
    TextProcessor.srOnEqual_bounds ['ب'] ['ب'] ['ب'] ['ب'] ['ب'] 1

end AyatExtractor

namespace TextProcessor

lemma demo_text_similarity :
    text_similarity id none srOnEqual ['ب'] ['ب'] .combined = 87/100 := by
  have h := text_similarity_combined_of_clean_eq id srOnEqual ['ب'] ['ب']
    rfl (by rw [clean_text_id_b]; simp)
    (by rw [clean_text_id_b]; simp [srOnEqual])
  rw [vb_b] at h
  rw [h]
  norm_num

end TextProcessor

namespace AyatExtractor

open TextProcessor

lemma demo_score :
    calculate_match_score id none srOnEqual ['ب'] ['ب'] demo_ext.text 1
      = 87/100 := by
  show calculate_match_score id none srOnEqual ['ب'] ['ب'] ['ب'] 1 = 87/100
  unfold calculate_match_score
  dsimp only
  rw [demo_text_similarity, verseValues_b]
  norm_num [qmin]

lemma demo_select :
    select_best_match (fun e => calculate_match_score id none srOnEqual
        demo_row.aya_text demo_row.text_clean e.text demo_row.aya_no)
      (1/2) ∅ (List.enum [demo_ext]) = (87/100, some (0, demo_ext)) := by
  show select_loop (fun e => calculate_match_score id none srOnEqual
      ['ب'] ['ب'] e.text 1) (1/2) ∅ (0, none) [(0, demo_ext)] = _
  rw [select_loop]
  rw [if_neg (by simp)]
  dsimp only
  rw [demo_score]
  rw [if_pos (by norm_num)]
  rw [select_loop]

lemma demo_match_run :
    match_ayat_with_texts id none srOnEqual (1/2) [demo_row] [demo_ext] 1 =
      [make_match id 1 demo_row demo_ext (87/100)] := by
  unfold match_ayat_with_texts match_ayat_indexed
  have hfil : List.filter (fun r => r.page == 1) [demo_row] = [demo_row] := by
    simp [demo_row]
  rw [hfil]
  rw [match_loop]
  rw [demo_select]
  dsimp only
  rw [match_loop]
  rfl

/-- C2 witness: with threshold `1/2` the demo page yields exactly one
match, whose similarity `87/100` the theorem bounds from below. -/
theorem C2_witness :
    (1/2 : ℚ) ≤ (make_match id 1 demo_row demo_ext (87/100)).similarity :=
  (C2_similarity_meets_threshold id none TextProcessor.srOnEqual (1/2)
    [demo_row] [demo_ext] 1).1 _
    (by rw [demo_match_run]; exact List.mem_singleton.mpr rfl)

/-- C10 witness: the theorem applied to the demo page's single match,
whose confidence is the candidate's confidence times its similarity. -/
theorem C10_witness :
    (∃ e ∈ [demo_ext],
      (make_match id 1 demo_row demo_ext (87/100)).confidence =
        e.confidence *
          (make_match id 1 demo_row demo_ext (87/100)).similarity) ∧
    ((∀ e ∈ [demo_ext], e.confidence ≤ 1) →
      (make_match id 1 demo_row demo_ext (87/100)).confidence ≤
        (make_match id 1 demo_row demo_ext (87/100)).similarity) :=
  C10_confidence_is_product id none TextProcessor.srOnEqual (1/2)
    [demo_row] [demo_ext] 1 _
    (by rw [demo_match_run]; exact List.mem_singleton.mpr rfl)

end AyatExtractor

namespace AyatExtractor

/-- C9 witness: a failing parse yields `[]` from both collectors, and an
out-of-range page number (page 5 of an empty document) yields `[]`. -/
theorem C9_witness :
    extract_from_svg (fun _ _ => none) id (fun _ _ _ => ⟨0, 0, 0, 0⟩) id 1
        (Except.error "parse error") = [] ∧
    extract_from_pdf (Except.error "parse error") 5 = [] ∧
    @extract_from_pdf String (Except.ok ([] : PdfDoc)) 5 = [] := by
  have h := C9_parse_failure_yields_empty (fun _ _ => none) id
    (fun _ _ _ => ⟨0, 0, 0, 0⟩) id 1 "parse error" 5 []
  exact ⟨h.1, h.2.1, h.2.2 (Or.inr (by norm_num))⟩

end AyatExtractor
